import Mathlib

/-!
Verification of the schedule-bot repository (app.py, message_handler.py,
schedule_manager.py): a shallow embedding of its calendar arithmetic,
natural-language schedule parsing, and spreadsheet-backed store queries,
with theorems checking the natural-language specification against it.

Dates are embedded as `(year, month, day)` triples of naturals; Python
`datetime.date` arithmetic (`timedelta` addition/subtraction, `weekday`,
`calendar.monthrange`) is embedded through a proleptic-Gregorian day
ordinal identical to Python's `date.toordinal`.
-/

/-- Calendar date: mirrors Python `datetime.date` field-wise. -/
structure Date where
  year : Nat
  month : Nat
  day : Nat
deriving DecidableEq, Repr

/-- Gregorian leap-year rule, as used by Python `calendar`/`datetime`. -/
def isLeap (y : Nat) : Bool :=
  decide ((y % 4 = 0 ∧ ¬ y % 100 = 0) ∨ y % 400 = 0)

/-- Number of days of month `m` of year `y`: `calendar.monthrange(y, m)[1]`. -/
def daysInMonth (y : Nat) (m : Nat) : Nat :=
  match m with
  | 1 => 31
  | 2 => if isLeap y then 29 else 28
  | 3 => 31
  | 4 => 30
  | 5 => 31
  | 6 => 30
  | 7 => 31
  | 8 => 31
  | 9 => 30
  | 10 => 31
  | 11 => 30
  | 12 => 31
  | _ => 0

/-- Days in year `y` strictly before month `m`. -/
def daysBeforeMonth (y : Nat) (m : Nat) : Nat :=
  match m with
  | 1 => 0
  | 2 => 31
  | 3 => 59 + (if isLeap y then 1 else 0)
  | 4 => 90 + (if isLeap y then 1 else 0)
  | 5 => 120 + (if isLeap y then 1 else 0)
  | 6 => 151 + (if isLeap y then 1 else 0)
  | 7 => 181 + (if isLeap y then 1 else 0)
  | 8 => 212 + (if isLeap y then 1 else 0)
  | 9 => 243 + (if isLeap y then 1 else 0)
  | 10 => 273 + (if isLeap y then 1 else 0)
  | 11 => 304 + (if isLeap y then 1 else 0)
  | 12 => 334 + (if isLeap y then 1 else 0)
  | _ => 0

/-- Days strictly before January 1 of year `y` counting from 0001-01-01. -/
def daysBeforeYear (y : Nat) : Nat :=
  365 * (y - 1) + (y - 1) / 4 + (y - 1) / 400 - (y - 1) / 100

/-- Proleptic Gregorian ordinal of a date, identical to Python
`date.toordinal` (0001-01-01 has ordinal 1). -/
def toOrdinal (d : Date) : Nat :=
  daysBeforeYear d.year + daysBeforeMonth d.year d.month + d.day

/-- Python `date.weekday()`: Monday is 0, Sunday is 6. -/
def weekday (d : Date) : Nat :=
  (toOrdinal d + 6) % 7

/-- A structurally valid calendar date (what `datetime.date` accepts,
ignoring Python's 9999 upper year bound). -/
def isValidDate (d : Date) : Prop :=
  1 ≤ d.year ∧ 1 ≤ d.month ∧ d.month ≤ 12 ∧ 1 ≤ d.day ∧ d.day ≤ daysInMonth d.year d.month

instance (d : Date) : Decidable (isValidDate d) := by
  unfold isValidDate
  infer_instance

/-- Successor date: `d + timedelta(days=1)`. -/
def nextDay (d : Date) : Date :=
  if d.day < daysInMonth d.year d.month then ⟨d.year, d.month, d.day + 1⟩
  else if d.month < 12 then ⟨d.year, d.month + 1, 1⟩
  else ⟨d.year + 1, 1, 1⟩

/-- Predecessor date: `d - timedelta(days=1)`. -/
def prevDay (d : Date) : Date :=
  if 1 < d.day then ⟨d.year, d.month, d.day - 1⟩
  else if 1 < d.month then ⟨d.year, d.month - 1, daysInMonth d.year (d.month - 1)⟩
  else ⟨d.year - 1, 12, 31⟩

/-- Date plus `n` days: `d + timedelta(days=n)`. -/
def addDays (n : Nat) (d : Date) : Date :=
  nextDay^[n] d

/-- Date minus `n` days: `d - timedelta(days=n)`. -/
def subDays (n : Nat) (d : Date) : Date :=
  prevDay^[n] d

/-- Chronological order on dates (tuple order on year, month, day,
matching comparison of Python `date` objects). -/
def dateLe (a b : Date) : Prop :=
  a.year < b.year ∨ (a.year = b.year ∧ (a.month < b.month ∨ (a.month = b.month ∧ a.day ≤ b.day)))

instance (a b : Date) : Decidable (dateLe a b) := by
  unfold dateLe
  infer_instance

/-- Strict chronological order on dates. -/
def dateLt (a b : Date) : Prop :=
  a.year < b.year ∨ (a.year = b.year ∧ (a.month < b.month ∨ (a.month = b.month ∧ a.day < b.day)))

instance (a b : Date) : Decidable (dateLt a b) := by
  unfold dateLt
  infer_instance

theorem one_le_daysInMonth (y m : Nat) (h1 : 1 ≤ m) (h2 : m ≤ 12) :
    1 ≤ daysInMonth y m := by
  interval_cases m <;> simp only [daysInMonth] <;> first | omega | (split <;> omega)

theorem daysBeforeMonth_succ (y m : Nat) (h1 : 1 ≤ m) (h2 : m ≤ 11) :
    daysBeforeMonth y (m + 1) = daysBeforeMonth y m + daysInMonth y m := by
  interval_cases m <;>
    simp only [daysBeforeMonth, daysInMonth] <;>
    first | omega | (split_ifs <;> omega)

theorem dby_case_nonleap4 (p : Nat) (h4 : ¬(p + 1) % 4 = 0) :
    365 * (p + 1) + (p + 1) / 4 + (p + 1) / 400 - (p + 1) / 100 =
      365 * p + p / 4 + p / 400 - p / 100 + 365 + 0 := by
  omega

theorem dby_case_nonleap100 (p : Nat) (h100 : (p + 1) % 100 = 0) (h400 : ¬(p + 1) % 400 = 0) :
    365 * (p + 1) + (p + 1) / 4 + (p + 1) / 400 - (p + 1) / 100 =
      365 * p + p / 4 + p / 400 - p / 100 + 365 + 0 := by
  omega

theorem dby_case_leap4 (p : Nat) (h4 : (p + 1) % 4 = 0) (h100 : ¬(p + 1) % 100 = 0) :
    365 * (p + 1) + (p + 1) / 4 + (p + 1) / 400 - (p + 1) / 100 =
      365 * p + p / 4 + p / 400 - p / 100 + 365 + 1 := by
  omega

theorem dby_case_leap400 (p : Nat) (h400 : (p + 1) % 400 = 0) :
    365 * (p + 1) + (p + 1) / 4 + (p + 1) / 400 - (p + 1) / 100 =
      365 * p + p / 4 + p / 400 - p / 100 + 365 + 1 := by
  omega

theorem daysBeforeYear_succ (y : Nat) (h : 1 ≤ y) :
    daysBeforeYear (y + 1) = daysBeforeYear y + 365 + (if isLeap y then 1 else 0) := by
  obtain ⟨p, rfl⟩ : ∃ p, y = p + 1 := ⟨y - 1, by omega⟩
  clear h
  unfold daysBeforeYear isLeap
  simp only [Nat.add_sub_cancel]
  split_ifs with hl
  · simp only [decide_eq_true_eq] at hl
    rcases hl with ⟨h4, h100⟩ | h400
    · exact dby_case_leap4 p h4 h100
    · exact dby_case_leap400 p h400
  · simp only [decide_eq_true_eq] at hl
    rw [not_or, not_and_or, not_not] at hl
    obtain ⟨h1, h400⟩ := hl
    rcases h1 with h4 | h100
    · exact dby_case_nonleap4 p h4
    · exact dby_case_nonleap100 p h100 h400

theorem toOrdinal_pos (d : Date) (h : isValidDate d) : 1 ≤ toOrdinal d := by
  obtain ⟨hy, hm1, hm2, hd1, hd2⟩ := h
  unfold toOrdinal
  omega

theorem nextDay_ordinal (d : Date) (h : isValidDate d) :
    toOrdinal (nextDay d) = toOrdinal d + 1 ∧ isValidDate (nextDay d) := by
  obtain ⟨y, m, dd⟩ := d
  unfold isValidDate at h
  dsimp only at h
  obtain ⟨hy, hm1, hm2, hd1, hd2⟩ := h
  unfold nextDay
  dsimp only
  split
  · unfold toOrdinal isValidDate
    dsimp only
    exact ⟨by omega, hy, hm1, hm2, by omega, by omega⟩
  · split
    · rename_i hlt hm
      have hstep := daysBeforeMonth_succ y m hm1 (by omega)
      unfold toOrdinal isValidDate
      dsimp only
      refine ⟨by omega, hy, by omega, by omega, by omega, ?_⟩
      exact one_le_daysInMonth y (m + 1) (by omega) (by omega)
    · rename_i hlt hm
      have hm12 : m = 12 := by omega
      subst hm12
      have hstep := daysBeforeYear_succ y hy
      unfold toOrdinal isValidDate
      dsimp only
      simp only [daysBeforeMonth, daysInMonth] at *
      split_ifs at * <;>
        exact ⟨by omega, by omega, by omega, by omega, by omega, by omega⟩

theorem prevDay_ordinal (d : Date) (h : isValidDate d) (h2 : 1 < toOrdinal d) :
    toOrdinal (prevDay d) + 1 = toOrdinal d ∧ isValidDate (prevDay d) := by
  obtain ⟨y, m, dd⟩ := d
  unfold isValidDate at h
  dsimp only at h
  obtain ⟨hy, hm1, hm2, hd1, hd2⟩ := h
  unfold toOrdinal at h2
  dsimp only at h2
  unfold prevDay
  dsimp only
  split
  · unfold toOrdinal isValidDate
    dsimp only
    exact ⟨by omega, hy, hm1, hm2, by omega, by omega⟩
  · split
    · rename_i hd hm
      have hstep := daysBeforeMonth_succ y (m - 1) (by omega) (by omega)
      have hmm : m - 1 + 1 = m := by omega
      rw [hmm] at hstep
      unfold toOrdinal isValidDate
      dsimp only
      exact ⟨by omega, hy, by omega, by omega,
        one_le_daysInMonth y (m - 1) (by omega) (by omega), by omega⟩
    · rename_i hd hm
      have hday : dd = 1 := by omega
      have hmon : m = 1 := by omega
      subst hmon
      simp only [daysBeforeMonth] at h2
      have hy2 : 2 ≤ y := by
        by_contra hc
        have h1 : y = 1 := by omega
        subst h1
        simp [daysBeforeYear] at h2
        omega
      have hstep := daysBeforeYear_succ (y - 1) (by omega)
      have hyy : y - 1 + 1 = y := by omega
      rw [hyy] at hstep
      unfold toOrdinal isValidDate
      dsimp only
      simp only [daysBeforeMonth, daysInMonth] at *
      split_ifs at * <;>
        exact ⟨by omega, by omega, by omega, by omega, by omega, by omega⟩

theorem addDays_ordinal (n : Nat) (d : Date) (h : isValidDate d) :
    toOrdinal (addDays n d) = toOrdinal d + n ∧ isValidDate (addDays n d) := by
  induction n with
  | zero => simpa [addDays] using h
  | succ k ih =>
    have hstep := nextDay_ordinal (addDays k d) ih.2
    unfold addDays at *
    rw [Function.iterate_succ_apply']
    constructor
    · omega
    · exact hstep.2

theorem subDays_ordinal (n : Nat) (d : Date) (h : isValidDate d) (h2 : n < toOrdinal d) :
    toOrdinal (subDays n d) + n = toOrdinal d ∧ isValidDate (subDays n d) := by
  induction n with
  | zero => simpa [subDays] using h
  | succ k ih =>
    have ihh := ih (by omega)
    have hstep := prevDay_ordinal (subDays k d) ihh.2 (by omega)
    unfold subDays at *
    rw [Function.iterate_succ_apply']
    constructor
    · omega
    · exact hstep.2

/-!
Range resolver: the date-window computations of `ScheduleManager` in
`app.py` (`get_tomorrow_schedules`, `get_this_week_schedules`,
`get_next_month_schedules`, `get_two_weeks_later_schedules`), expressed
as pure functions of the reference date `today`.
-/

/-- Window of `get_tomorrow_schedules` (app.py): the single day
`today + timedelta(days=1)`, passed as both ends of the range. -/
def tomorrowRange (today : Date) : Date × Date :=
  (nextDay today, nextDay today)

/-- Window of `get_this_week_schedules` (app.py):
`this_monday = today - timedelta(days=today.weekday())`,
`this_sunday = this_monday + timedelta(days=6)`. -/
def thisWeekRange (today : Date) : Date × Date :=
  (subDays (weekday today) today, addDays 6 (subDays (weekday today) today))

/-- Window of `get_next_month_schedules` (app.py): start is
`today.replace(year+1, month=1, day=1)` when `today.month == 12` and
`today.replace(month=today.month+1, day=1)` otherwise; end is the start
with `day` replaced by `monthrange(year, month)[1]`. -/
def nextMonthRange (today : Date) : Date × Date :=
  (if today.month = 12 then ⟨today.year + 1, 1, 1⟩ else ⟨today.year, today.month + 1, 1⟩,
   if today.month = 12 then ⟨today.year + 1, 1, daysInMonth (today.year + 1) 1⟩
   else ⟨today.year, today.month + 1, daysInMonth today.year (today.month + 1)⟩)

/-- Window of `get_two_weeks_later_schedules` (app.py):
`two_weeks_later = today + timedelta(weeks=2)`,
`start_of_week = two_weeks_later - timedelta(days=two_weeks_later.weekday())`,
`end_of_week = start_of_week + timedelta(days=6)`. -/
def twoWeeksWindow (today : Date) : Date × Date :=
  (subDays (weekday (addDays 14 today)) (addDays 14 today),
   addDays 6 (subDays (weekday (addDays 14 today)) (addDays 14 today)))

theorem weekday_lt_toOrdinal (d : Date) (h : isValidDate d) :
    weekday d < toOrdinal d := by
  have hp := toOrdinal_pos d h
  unfold weekday
  omega

theorem monday_of (d : Date) (h : isValidDate d) :
    weekday (subDays (weekday d) d) = 0 ∧
      toOrdinal (subDays (weekday d) d) + weekday d = toOrdinal d ∧
      isValidDate (subDays (weekday d) d) := by
  have hw := weekday_lt_toOrdinal d h
  have hs := subDays_ordinal (weekday d) d h hw
  refine ⟨?_, hs.1, hs.2⟩
  have h1 := hs.1
  unfold weekday at *
  omega

/-!
Expression parser: embedding of `parse_natural_input` (app.py). The
regular expressions of the ordered pattern list are embedded as explicit
matching functions on `List Char` with Python `re.match` semantics
(anchored at the start, greedy with backtracking, `.` matching any char
except a newline, `\d` taken as ASCII digits, `\s` as Python's ASCII
whitespace class). Matching is on the code points of the text, exactly
as Python matches `str` values.
-/

/-- Python `\s` whitespace class (ASCII part, which also drives `str.strip`). -/
def isSpaceCh (c : Char) : Bool :=
  decide (c = ' ' ∨ c = '\t' ∨ c = '\n' ∨ c = '\r' ∨ c.toNat = 11 ∨ c.toNat = 12)

/-- Python `\d` digit class (ASCII digits). -/
def isDigitCh (c : Char) : Bool :=
  decide ('0' ≤ c ∧ c ≤ '9')

/-- Numeric value of an ASCII digit. -/
def digitVal (c : Char) : Nat :=
  c.toNat - '0'.toNat

/-- Python `str.strip()` on a character list. -/
def trimL (s : List Char) : List Char :=
  ((s.dropWhile isSpaceCh).reverse.dropWhile isSpaceCh).reverse

/-- String from a trimmed character list. -/
def strTrim (s : List Char) : String :=
  ⟨trimL s⟩

/-- The character class `[點時]` (hour markers). -/
def isHourMark (c : Char) : Bool :=
  decide (c = '點' ∨ c = '時')

/-- The character class `[號日]` (day markers). -/
def isDayMark (c : Char) : Bool :=
  decide (c = '號' ∨ c = '日')

/-- Consume a literal run of characters, returning the rest. -/
def takeLit : List Char → List Char → Option (List Char)
  | [], s => some s
  | _ :: _, [] => none
  | c :: cs, x :: xs => if x = c then takeLit cs xs else none

/-- Match `(\d{1,2})` immediately followed by one character of the class
`isM` (consumed), greedily trying two digits and backtracking to one, as
Python's regex engine does. Returns the numeric value and the rest. -/
def numThen (isM : Char → Bool) : List Char → Option (Nat × List Char)
  | a :: b :: c :: r =>
    if isDigitCh a then
      if isDigitCh b && isM c then some (10 * digitVal a + digitVal b, r)
      else if isM b then some (digitVal a, c :: r)
      else none
    else none
  | [a, b] =>
    if isDigitCh a && isM b then some (digitVal a, [])
    else none
  | _ => none

/-- Match `(\d{4})` immediately followed by one character of the class
`isM` (consumed). -/
def fourThen (isM : Char → Bool) : List Char → Option (Nat × List Char)
  | a :: b :: c :: d :: e :: r =>
    if isDigitCh a && isDigitCh b && isDigitCh c && isDigitCh d && isM e then
      some (1000 * digitVal a + 100 * digitVal b + 10 * digitVal c + digitVal d, r)
    else none
  | _ => none

/-- Match `(\d{2})` exactly, returning the two digit characters. -/
def twoDigitChars : List Char → Option (List Char × List Char)
  | a :: b :: r => if isDigitCh a && isDigitCh b then some ([a, b], r) else none
  | _ => none

/-- Match `\s*(.+)` with Python semantics: the whitespace run is greedy
and backtracks until `.+` can match at least one non-newline character;
the group is the greedy `.+` match (up to the next newline or the end). -/
def wsDotPlus : List Char → Option (List Char)
  | [] => none
  | c :: t =>
    if isSpaceCh c then
      match wsDotPlus t with
      | some r => some r
      | none => if c = '\n' then none else some ((c :: t).takeWhile (fun x => !(x = '\n' : Bool)))
    else
      if c = '\n' then none else some ((c :: t).takeWhile (fun x => !(x = '\n' : Bool)))

/-- Match `\s+(.+)`: one mandatory whitespace character, then `\s*(.+)`. -/
def wsPlusDotPlus : List Char → Option (List Char)
  | [] => none
  | c :: t => if isSpaceCh c then wsDotPlus t else none

/-- Matcher for `{kw}\s*(\d{1,2})[點時]\s*(.+)`. -/
def mRelTime (kw s : List Char) : Option (Nat × List Char) := do
  let r ← takeLit kw s
  let (h, r2) ← numThen isHourMark (r.dropWhile isSpaceCh)
  let c ← wsDotPlus r2
  pure (h, c)

/-- Matcher for `{kw}\s*{qual}(\d{1,2})[點時]\s*(.+)`. -/
def mRelQual (kw qual s : List Char) : Option (Nat × List Char) := do
  let r ← takeLit kw s
  let r1 ← takeLit qual (r.dropWhile isSpaceCh)
  let (h, r2) ← numThen isHourMark r1
  let c ← wsDotPlus r2
  pure (h, c)

/-- Matcher for `{kw}\s*(.+)`. -/
def mRelOnly (kw s : List Char) : Option (List Char) := do
  let r ← takeLit kw s
  wsDotPlus r

/-- Matcher for `(\d{1,2})/(\d{1,2})\s+(\d{1,2}):(\d{2})\s+(.+)`. -/
def mSlashTime (s : List Char) : Option (Nat × Nat × Nat × List Char × List Char) := do
  let (mo, r1) ← numThen (fun c => decide (c = '/')) s
  let (dy, r2) ← numThen isSpaceCh r1
  let (h, r3) ← numThen (fun c => decide (c = ':')) (r2.dropWhile isSpaceCh)
  let (mi, r4) ← twoDigitChars r3
  let c ← wsPlusDotPlus r4
  pure (mo, dy, h, mi, c)

/-- Matcher for `(\d{1,2})/(\d{1,2})\s+(.+)`. -/
def mSlashOnly (s : List Char) : Option (Nat × Nat × List Char) := do
  let (mo, r1) ← numThen (fun c => decide (c = '/')) s
  let (dy, r2) ← numThen isSpaceCh r1
  let c ← wsDotPlus r2
  pure (mo, dy, c)

/-- Matcher for the shared part `(\d{1,2})月(\d{1,2})[號日]`. -/
def mChDate (s : List Char) : Option (Nat × Nat × List Char) := do
  let (mo, r1) ← numThen (fun c => decide (c = '月')) s
  let (dy, r2) ← numThen isDayMark r1
  pure (mo, dy, r2)

/-- Matcher for `(\d{1,2})月(\d{1,2})[號日]\s*{qual}(\d{1,2})[點時]\s*(.+)`. -/
def mChQual (qual s : List Char) : Option (Nat × Nat × Nat × List Char) := do
  let (mo, dy, r) ← mChDate s
  let r1 ← takeLit qual (r.dropWhile isSpaceCh)
  let (h, r2) ← numThen isHourMark r1
  let c ← wsDotPlus r2
  pure (mo, dy, h, c)

/-- Matcher for `(\d{1,2})月(\d{1,2})[號日]\s*(\d{1,2})[點時]\s*(.+)`. -/
def mChHour (s : List Char) : Option (Nat × Nat × Nat × List Char) := do
  let (mo, dy, r) ← mChDate s
  let (h, r2) ← numThen isHourMark (r.dropWhile isSpaceCh)
  let c ← wsDotPlus r2
  pure (mo, dy, h, c)

/-- Matcher for `(\d{1,2})月(\d{1,2})[號日]\s*(.+)`. -/
def mChOnly (s : List Char) : Option (Nat × Nat × List Char) := do
  let (mo, dy, r) ← mChDate s
  let c ← wsDotPlus r
  pure (mo, dy, c)

/-- Matcher for `(\d{4})-(\d{1,2})-(\d{1,2})\s+(\d{1,2}):(\d{2})\s+(.+)`. -/
def mFullTime (s : List Char) : Option (Nat × Nat × Nat × Nat × List Char × List Char) := do
  let (y, r1) ← fourThen (fun c => decide (c = '-')) s
  let (mo, r2) ← numThen (fun c => decide (c = '-')) r1
  let (dy, r3) ← numThen isSpaceCh r2
  let (h, r4) ← numThen (fun c => decide (c = ':')) (r3.dropWhile isSpaceCh)
  let (mi, r5) ← twoDigitChars r4
  let c ← wsPlusDotPlus r5
  pure (y, mo, dy, h, mi, c)

/-- Matcher for `(\d{4})-(\d{1,2})-(\d{1,2})\s+(.+)`. -/
def mFullOnly (s : List Char) : Option (Nat × Nat × Nat × List Char) := do
  let (y, r1) ← fourThen (fun c => decide (c = '-')) s
  let (mo, r2) ← numThen (fun c => decide (c = '-')) r1
  let (dy, r3) ← numThen isSpaceCh r2
  let c ← wsDotPlus r3
  pure (y, mo, dy, c)

/-- Two-digit zero padding, as in Python `f"{n:02d}"` / `strftime` fields. -/
def pad2 (n : Nat) : String :=
  if n < 10 then "0" ++ toString n else toString n

/-- Four-digit zero padding, as in `strftime('%Y')`. -/
def pad4 (n : Nat) : String :=
  if n < 10 then "000" ++ toString n
  else if n < 100 then "00" ++ toString n
  else if n < 1000 then "0" ++ toString n
  else toString n

/-- Date formatted as `strftime('%Y-%m-%d')`. -/
def formatDate (d : Date) : String :=
  pad4 d.year ++ "-" ++ pad2 d.month ++ "-" ++ pad2 d.day

/-- Date formatted as `f"{year}-{month:02d}-{day:02d}"` (year unpadded,
as in the slash-date handlers of `parse_natural_input`). -/
def formatDateF (y m d : Nat) : String :=
  toString y ++ "-" ++ pad2 m ++ "-" ++ pad2 d

/-- Hour normalization of the `_am` handler branch of `parse_natural_input`:
hour 12 becomes 0, then hours above 12 are rejected. -/
def amHour (h : Nat) : Option Nat :=
  if 12 < (if h = 12 then 0 else h) then none else some (if h = 12 then 0 else h)

/-- Hour normalization of the `_pm` handler branch of `parse_natural_input`:
hours below 12 gain 12, then results above 24 are rejected. -/
def pmHour (h : Nat) : Option Nat :=
  if 24 < (if h < 12 then h + 12 else h) then none else some (if h < 12 then h + 12 else h)

/-- Handler of the `_time` branch: literal hour accepted up to 24,
minute fixed to `:00`. -/
def relTimeHandler (today : Date) (h : Nat) (content : List Char) :
    Option (String × String × String) :=
  if 24 < h then none else some (formatDate today, pad2 h ++ ":00", strTrim content)

/-- Handler of the `_am` branch. -/
def relAmHandler (today : Date) (h : Nat) (content : List Char) :
    Option (String × String × String) :=
  match amHour h with
  | none => none
  | some h2 => some (formatDate today, pad2 h2 ++ ":00", strTrim content)

/-- Handler of the `_pm` branch. -/
def relPmHandler (today : Date) (h : Nat) (content : List Char) :
    Option (String × String × String) :=
  match pmHour h with
  | none => none
  | some h2 => some (formatDate today, pad2 h2 ++ ":00", strTrim content)

/-- Handler of the `_only` branch: all-day entry for the resolved day. -/
def relOnlyHandler (today : Date) (content : List Char) :
    Option (String × String × String) :=
  some (formatDate today, "", strTrim content)

/-- Validity as checked by the `datetime(year, month, day)` constructor
(month 1-12, day within the month, year within Python's 1..9999). -/
def validPyDate (y m d : Nat) : Bool :=
  (1 ≤ m && m ≤ 12) && (1 ≤ d && d ≤ daysInMonth y m) && (1 ≤ y && y ≤ 9999)

/-- Handler of the `date_time` rule: `datetime(current_year, month, day)`
validates the date (a `ValueError` skips the rule); the time keeps the
literal hour (unchecked) and the captured minute text. -/
def dateTimeHandler (year mo dy h : Nat) (minute : List Char) (content : List Char) :
    Option (String × String × String) :=
  if validPyDate year mo dy then
    some (formatDateF year mo dy, pad2 h ++ ":" ++ ⟨minute⟩, strTrim content)
  else none

/-- Handler of the `date_only` rule. -/
def dateOnlyHandler (year mo dy : Nat) (content : List Char) :
    Option (String × String × String) :=
  if validPyDate year mo dy then
    some (formatDateF year mo dy, "", strTrim content)
  else none

/-- Month/day validity for the Chinese-date rules. Modelled from the spec:
calendar-arithmetic errors (invalid month/day combination) are rejected as
`NoMatch` for the rule, never clamped. -/
def validMonthDay (y m d : Nat) : Bool :=
  (1 ≤ m && m ≤ 12) && (1 ≤ d && d ≤ daysInMonth y m)

/-- Handler of the `chinese_date_only` rule. Modelled from the spec: the
handler bodies for the `chinese_*` and `full_date_*` patterns are elided in
`src/app.py` (its comment says the remaining logic is unchanged and omitted
to save space), so rule 7 of the grammar is followed: Chinese month/day
with no time yields an all-day entry in the current year. -/
def chDateOnlyHandler (year mo dy : Nat) (content : List Char) :
    Option (String × String × String) :=
  if validMonthDay year mo dy then
    some (formatDateF year mo dy, "", strTrim content)
  else none

/-- Handler of the `chinese_default` rule. Modelled from the spec: a bare
hour after a Chinese month/day is taken literally as a 24-hour value and
rejected above 24 (grammar rule 6). -/
def chHourHandler (year mo dy h : Nat) (content : List Char) :
    Option (String × String × String) :=
  if validMonthDay year mo dy then
    if 24 < h then none
    else some (formatDateF year mo dy, pad2 h ++ ":00", strTrim content)
  else none

/-- Handler of the `chinese_am` rule. Modelled from the spec: same am
normalization as the relative-day rules (grammar rule 5). -/
def chAmHandler (year mo dy h : Nat) (content : List Char) :
    Option (String × String × String) :=
  if validMonthDay year mo dy then
    match amHour h with
    | none => none
    | some h2 => some (formatDateF year mo dy, pad2 h2 ++ ":00", strTrim content)
  else none

/-- Handler of the `chinese_pm` rule. Modelled from the spec: same pm
normalization as the relative-day rules (grammar rule 5). -/
def chPmHandler (year mo dy h : Nat) (content : List Char) :
    Option (String × String × String) :=
  if validMonthDay year mo dy then
    match pmHour h with
    | none => none
    | some h2 => some (formatDateF year mo dy, pad2 h2 ++ ":00", strTrim content)
  else none

/-- Handler of the `full_date_time` rule. Modelled from the spec: explicit
`YYYY-M-D HH:MM` input accepted as a fallback, date validity checked. -/
def fullTimeHandler (year mo dy h : Nat) (minute : List Char) (content : List Char) :
    Option (String × String × String) :=
  if validMonthDay year mo dy then
    some (formatDateF year mo dy, pad2 h ++ ":" ++ ⟨minute⟩, strTrim content)
  else none

/-- Handler of the `full_date_only` rule. Modelled from the spec. -/
def fullOnlyHandler (year mo dy : Nat) (content : List Char) :
    Option (String × String × String) :=
  if validMonthDay year mo dy then
    some (formatDateF year mo dy, "", strTrim content)
  else none

/-- One step of the pattern loop of `parse_natural_input`: if the shape
matcher fails, or it matches but the handler's semantic validation fails
(the `continue` statements), evaluation falls through to the remaining
rules. -/
def tryRule {γ : Type} (g : Option γ) (h : γ → Option (String × String × String))
    (rest : Option (String × String × String)) : Option (String × String × String) :=
  match g with
  | none => rest
  | some x =>
    match h x with
    | none => rest
    | some v => some v

/-- Embedding of `parse_natural_input(text)` (app.py): the reference clock
is passed explicitly as `today` (the source reads `datetime.now(TZ)`; it
also reads the current year from `datetime.now()`, the same clock). The
patterns are tried in the source's order; `None, None, None` is `none`. -/
def parseNaturalInput (text : String) (today : Date) : Option (String × String × String) :=
  let s := trimL text.data
  let t1 := nextDay today
  let t2 := nextDay (nextDay today)
  let yr := today.year
  tryRule (mRelTime "今天".data s) (fun g => relTimeHandler today g.1 g.2) <|
  tryRule (mRelQual "今天".data "上午".data s) (fun g => relAmHandler today g.1 g.2) <|
  tryRule (mRelQual "今天".data "下午".data s) (fun g => relPmHandler today g.1 g.2) <|
  tryRule (mRelQual "今天".data "晚上".data s) (fun g => relPmHandler today g.1 g.2) <|
  tryRule (mRelOnly "今天".data s) (fun c => relOnlyHandler today c) <|
  tryRule (mRelTime "明天".data s) (fun g => relTimeHandler t1 g.1 g.2) <|
  tryRule (mRelQual "明天".data "上午".data s) (fun g => relAmHandler t1 g.1 g.2) <|
  tryRule (mRelQual "明天".data "下午".data s) (fun g => relPmHandler t1 g.1 g.2) <|
  tryRule (mRelQual "明天".data "晚上".data s) (fun g => relPmHandler t1 g.1 g.2) <|
  tryRule (mRelOnly "明天".data s) (fun c => relOnlyHandler t1 c) <|
  tryRule (mRelTime "後天".data s) (fun g => relTimeHandler t2 g.1 g.2) <|
  tryRule (mRelQual "後天".data "上午".data s) (fun g => relAmHandler t2 g.1 g.2) <|
  tryRule (mRelQual "後天".data "下午".data s) (fun g => relPmHandler t2 g.1 g.2) <|
  tryRule (mRelQual "後天".data "晚上".data s) (fun g => relPmHandler t2 g.1 g.2) <|
  tryRule (mRelOnly "後天".data s) (fun c => relOnlyHandler t2 c) <|
  tryRule (mSlashTime s) (fun g => dateTimeHandler yr g.1 g.2.1 g.2.2.1 g.2.2.2.1 g.2.2.2.2) <|
  tryRule (mSlashOnly s) (fun g => dateOnlyHandler yr g.1 g.2.1 g.2.2) <|
  tryRule (mChQual "下午".data s) (fun g => chPmHandler yr g.1 g.2.1 g.2.2.1 g.2.2.2) <|
  tryRule (mChQual "上午".data s) (fun g => chAmHandler yr g.1 g.2.1 g.2.2.1 g.2.2.2) <|
  tryRule (mChQual "晚上".data s) (fun g => chPmHandler yr g.1 g.2.1 g.2.2.1 g.2.2.2) <|
  tryRule (mChHour s) (fun g => chHourHandler yr g.1 g.2.1 g.2.2.1 g.2.2.2) <|
  tryRule (mChOnly s) (fun g => chDateOnlyHandler yr g.1 g.2.1 g.2.2) <|
  tryRule (mFullTime s) (fun g => fullTimeHandler g.1 g.2.1 g.2.2.1 g.2.2.2.1 g.2.2.2.2.1 g.2.2.2.2.2) <|
  tryRule (mFullOnly s) (fun g => fullOnlyHandler g.1 g.2.1 g.2.2.1 g.2.2.2) <|
  none

/-!
Store layer: embedding of the spreadsheet/memory records and of
`ScheduleManager` of app.py (rows with columns ID, 日期, 時間, 行程內容,
提醒設定, 建立時間, LINE用戶ID, 狀態), together with the earlier iteration
in schedule_manager.py and the `process_message` dispatcher in
message_handler.py.
-/

/-- A stored schedule row. Fields mirror the sheet columns of app.py
(`ID`, `日期`, `時間`, `行程內容`, `提醒設定`, `建立時間`, `LINE用戶ID`,
`狀態`); schedule_manager.py stores the same data with its owner column
named 使用者ID, embedded by the same `owner` field. -/
structure Record where
  id : String
  date : String
  time : String
  content : String
  reminder : String
  created : String
  owner : String
  status : String
deriving DecidableEq, Repr

/-- Match `(\d{1,2})` consuming the entire remaining input. -/
def digits12End : List Char → Option Nat
  | [a] => if isDigitCh a then some (digitVal a) else none
  | [a, b] => if isDigitCh a && isDigitCh b then some (10 * digitVal a + digitVal b) else none
  | _ => none

/-- Embedding of `datetime.strptime(s, '%Y-%m-%d')` as a date parser:
four year digits, dash, one or two month digits, dash, one or two day
digits consuming the whole string, then constructor validation. A
`ValueError` is `none`. -/
def parseDateStr (s : String) : Option Date := do
  let (y, r1) ← fourThen (fun c => decide (c = '-')) s.data
  let (mo, r2) ← numThen (fun c => decide (c = '-')) r1
  let dy ← digits12End r2
  if validPyDate y mo dy then some ⟨y, mo, dy⟩ else none

/-- Embedding of `datetime.strptime(s, '%H:%M')`: hour 0-23 (one or two
digits), colon, minute 0-59 (one or two digits), whole string consumed. -/
def parseTimeStr (s : String) : Option (Nat × Nat) := do
  let (h, r1) ← numThen (fun c => decide (c = ':')) s.data
  let mi ← digits12End r1
  if h ≤ 23 && mi ≤ 59 then some (h, mi) else none

/-- Python `<` on strings: code-point lexicographic comparison, embedded
as the structural list order on the character data. -/
def strLt (a b : String) : Prop :=
  List.lt a.data b.data

instance (a b : String) : Decidable (strLt a b) :=
  List.hasDecidableLt a.data b.data

/-- Python `<=` on strings. -/
def strLe (a b : String) : Prop :=
  ¬ strLt b a

instance (a b : String) : Decidable (strLe a b) :=
  inferInstanceAs (Decidable ¬ strLt b a)

/-- Sort key order of `get_schedules_by_date_range`: Python tuple
comparison on `(x['日期'], x.get('時間', ''))`, i.e. lexicographic by the
date string, then the time string (code-point string order). -/
def keyLe (a b : Record) : Prop :=
  strLt a.date b.date ∨ (a.date = b.date ∧ strLe a.time b.time)

instance : DecidableRel keyLe := fun a b =>
  inferInstanceAs (Decidable (strLt a.date b.date ∨ (a.date = b.date ∧ strLe a.time b.time)))

/-- Python truthiness filter `if user_id and record.get('LINE用戶ID') != user_id`:
an empty `userId` stands for a falsy argument (None or `""`), disabling
the owner filter. -/
def userOk (userId : String) (r : Record) : Bool :=
  userId == "" || r.owner == userId

/-- Date-window test of the query loop: parse the stored date string and
compare with the inclusive range ends (rows with unparsable dates are
skipped). -/
def dateInRange (s : String) (startD endD : Date) : Bool :=
  match parseDateStr s with
  | none => false
  | some d => decide (dateLe startD d) && decide (dateLe d endD)

/-- Row filter of `get_schedules_by_date_range` (app.py): requires nonempty
date and content, status other than 已刪除, owner match, and date within
the range. -/
def keepRecord (userId : String) (startD endD : Date) (r : Record) : Bool :=
  !(r.date == "") && !(r.content == "") && !(r.status == "已刪除") && userOk userId r &&
    dateInRange r.date startD endD

/-- Embedding of `get_schedules_by_date_range(start, end, user_id)`
(app.py): filter the stored rows, then sort stably by `(日期, 時間)`. -/
def getSchedulesByDateRange (records : List Record) (startD endD : Date) (userId : String) :
    List Record :=
  List.insertionSort keyLe (records.filter (keepRecord userId startD endD))

/-- Embedding of `get_tomorrow_schedules(user_id)` (app.py): the range
query for the single day `today + timedelta(days=1)`. -/
def getTomorrowSchedules (records : List Record) (today : Date) (userId : String) :
    List Record :=
  getSchedulesByDateRange records (nextDay today) (nextDay today) userId

/-- Row filter of `get_two_weeks_later_schedules` (app.py): date, content
and owner nonempty, not deleted, date within the window. -/
def keepTwoWeeks (startD endD : Date) (r : Record) : Bool :=
  !(r.date == "") && !(r.content == "") && !(r.owner == "") && !(r.status == "已刪除") &&
    dateInRange r.date startD endD

/-- Embedding of `get_two_weeks_later_schedules()` (app.py), which groups
matching rows per user and sorts each group by `(日期, 時間)`; the result
dict is embedded as the per-owner fiber. -/
def getTwoWeeksLaterSchedules (records : List Record) (today : Date) (uid : String) :
    List Record :=
  List.insertionSort keyLe
    (records.filter fun r =>
      keepTwoWeeks (twoWeeksWindow today).1 (twoWeeksWindow today).2 r && r.owner == uid)

/-- Embedding of `get_two_weeks_later_schedules()` of schedule_manager.py
(the earlier iteration): rows whose stored date string equals the strftime
of `now + timedelta(days=14)`, grouped per user with no other checks and
no sort; the result dict is embedded as the per-owner fiber. -/
def smTwoWeeksLaterSchedules (records : List Record) (today : Date) (uid : String) :
    List Record :=
  records.filter fun r => r.date == formatDate (addDays 14 today) && r.owner == uid

/-- A clock reading (date plus time of day), for the pieces of the source
that use a full `datetime`. -/
structure DateTime where
  date : Date
  hour : Nat
  minute : Nat
  second : Nat
deriving DecidableEq, Repr

/-- The query date used by `process_message` (message_handler.py) for
`明天有哪些行程`: the code computes `datetime.now(tz) + tz.utcoffset(...)`
— it adds the timezone's UTC offset, which for Asia/Taipei is 8 hours —
and formats that instant's date. The date advances only when the local
hour is at least 16. -/
def msgTomorrowDate (now : DateTime) : Date :=
  if now.hour + 8 < 24 then now.date else nextDay now.date

/-- Return value of `add_schedule` (app.py): `pastDate` stands for the
sentinel string `"過去日期"`, `invalidFormat` for `False`, and `ok id` for
the assigned schedule id string. -/
inductive AddResult where
  | pastDate
  | invalidFormat
  | ok (id : String)
deriving DecidableEq, Repr

/-- Python `user_id[-4:]`. -/
def lastFour (s : String) : String :=
  ⟨s.data.drop (s.data.length - 4)⟩

/-- Memory-mode id of `add_schedule`:
`f"M{now.strftime('%Y%m%d%H%M%S')}{user_id[-4:]}"`. -/
def mkScheduleId (now : DateTime) (userId : String) : String :=
  "M" ++ pad4 now.date.year ++ pad2 now.date.month ++ pad2 now.date.day ++
    pad2 now.hour ++ pad2 now.minute ++ pad2 now.second ++ lastFour userId

/-- Creation timestamp `now.strftime('%Y-%m-%d %H:%M:%S')`. -/
def mkCreated (now : DateTime) : String :=
  formatDate now.date ++ " " ++ pad2 now.hour ++ ":" ++ pad2 now.minute ++ ":" ++ pad2 now.second

/-- Embedding of `add_schedule(date_str, time_str, content, user_id)`
(app.py, memory mode; the sheets branch guards identically before any
write): validate the date format, validate the time format when a time is
given, reject dates before `today` with the 過去日期 sentinel, and only
then append one row and return its id. -/
def addSchedule (store : List Record) (dateStr timeStr content userId : String)
    (now : DateTime) (today : Date) : List Record × AddResult :=
  match parseDateStr dateStr with
  | none => (store, AddResult.invalidFormat)
  | some d =>
    if !(timeStr == "") && (parseTimeStr timeStr).isNone then (store, AddResult.invalidFormat)
    else if dateLt d today then (store, AddResult.pastDate)
    else
      (store ++ [⟨mkScheduleId now userId, dateStr, timeStr, content, "", mkCreated now,
        userId, "有效"⟩],
       AddResult.ok (mkScheduleId now userId))

/-!
Order facts for the sort key, and membership characterizations of the
store queries.
-/

theorem charsLt_not_nil (l : List Char) (h : List.lt l ([] : List Char)) : False := by
  cases h

theorem charsLt_irrefl (l : List Char) : ¬ List.lt l l := by
  induction l with
  | nil => intro h; cases h
  | cons a as ih =>
    intro h
    cases h with
    | head _ _ hlt => exact lt_irrefl a hlt
    | tail h1 h2 h3 => exact ih h3

theorem charsLt_trans {l1 l2 l3 : List Char} (h12 : List.lt l1 l2) (h23 : List.lt l2 l3) :
    List.lt l1 l3 := by
  induction h12 generalizing l3 with
  | nil b bs =>
    cases h23 with
    | head _ _ _ => exact List.lt.nil _ _
    | tail _ _ _ => exact List.lt.nil _ _
  | head as bs hab =>
    cases h23 with
    | head _ _ hbc => exact List.lt.head _ _ (lt_trans hab hbc)
    | tail hbc hcb hrest =>
      have he := le_antisymm (le_of_not_lt hcb) (le_of_not_lt hbc)
      exact List.lt.head _ _ (he ▸ hab)
  | tail hab hba hrest ih =>
    have he := le_antisymm (le_of_not_lt hba) (le_of_not_lt hab)
    cases h23 with
    | head _ _ hbc => exact List.lt.head _ _ (he ▸ hbc)
    | tail hbc hcb hrest2 =>
      refine List.lt.tail ?_ ?_ (ih hrest2)
      · rw [he]; exact hbc
      · rw [he]; exact hcb

theorem charsLt_trichotomy (l1 l2 : List Char) :
    List.lt l1 l2 ∨ l1 = l2 ∨ List.lt l2 l1 := by
  induction l1 generalizing l2 with
  | nil =>
    cases l2 with
    | nil => exact Or.inr (Or.inl rfl)
    | cons b bs => exact Or.inl (List.lt.nil b bs)
  | cons a as ih =>
    cases l2 with
    | nil => exact Or.inr (Or.inr (List.lt.nil a as))
    | cons b bs =>
      rcases lt_trichotomy a b with hab | hab | hab
      · exact Or.inl (List.lt.head _ _ hab)
      · subst hab
        rcases ih bs with h | h | h
        · exact Or.inl (List.lt.tail (lt_irrefl a) (lt_irrefl a) h)
        · rw [h]
          exact Or.inr (Or.inl rfl)
        · exact Or.inr (Or.inr (List.lt.tail (lt_irrefl a) (lt_irrefl a) h))
      · exact Or.inr (Or.inr (List.lt.head _ _ hab))

theorem charsLt_asymm {l1 l2 : List Char} (h : List.lt l1 l2) : ¬ List.lt l2 l1 :=
  fun h2 => charsLt_irrefl l1 (charsLt_trans h h2)

theorem stringDataEq (a b : String) (h : a.data = b.data) : a = b := by
  cases a
  cases b
  exact congrArg String.mk h

theorem strLe_trans {a b c : String} (h1 : strLe a b) (h2 : strLe b c) : strLe a c := by
  intro hca
  rcases charsLt_trichotomy b.data c.data with h | h | h
  · exact h1 (charsLt_trans h hca)
  · refine h1 ?_
    unfold strLt
    rw [h]
    exact hca
  · exact h2 h

instance : IsTotal Record keyLe := by
  constructor
  intro a b
  rcases charsLt_trichotomy a.date.data b.date.data with h | h | h
  · exact Or.inl (Or.inl h)
  · have he : a.date = b.date := stringDataEq _ _ h
    rcases charsLt_trichotomy a.time.data b.time.data with ht | ht | ht
    · exact Or.inl (Or.inr ⟨he, charsLt_asymm ht⟩)
    · refine Or.inl (Or.inr ⟨he, fun hc => ?_⟩)
      unfold strLt at hc
      rw [← ht] at hc
      exact charsLt_irrefl a.time.data hc
    · exact Or.inr (Or.inr ⟨he.symm, charsLt_asymm ht⟩)
  · exact Or.inr (Or.inl h)

instance : IsTrans Record keyLe := by
  constructor
  intro a b c hab hbc
  rcases hab with hab | ⟨hab, hab2⟩
  · rcases hbc with hbc | ⟨hbc, _⟩
    · exact Or.inl (charsLt_trans hab hbc)
    · exact Or.inl (hbc ▸ hab)
  · rcases hbc with hbc | ⟨hbc, hbc2⟩
    · exact Or.inl (hab ▸ hbc)
    · exact Or.inr ⟨hab.trans hbc, strLe_trans hab2 hbc2⟩

theorem strLe_empty_left (s : String) : strLe "" s :=
  fun h => charsLt_not_nil s.data h

theorem keyLe_of_allday (a b : Record) (hd : a.date = b.date) (ht : a.time = "") :
    keyLe a b :=
  Or.inr ⟨hd, ht ▸ strLe_empty_left b.time⟩

theorem dateInRange_iff (s : String) (a b : Date) :
    dateInRange s a b = true ↔ ∃ d, parseDateStr s = some d ∧ dateLe a d ∧ dateLe d b := by
  unfold dateInRange
  cases h : parseDateStr s with
  | none => simp [h]
  | some d =>
    simp only [h, Bool.and_eq_true, decide_eq_true_eq]
    constructor
    · rintro ⟨h1, h2⟩
      exact ⟨d, rfl, h1, h2⟩
    · rintro ⟨d2, hd2, h1, h2⟩
      injection hd2 with he
      subst he
      exact ⟨h1, h2⟩

theorem parseDateStr_empty : parseDateStr "" = none := rfl

theorem mem_getSchedules (records : List Record) (startD endD : Date) (uid : String)
    (r : Record) :
    r ∈ getSchedulesByDateRange records startD endD uid ↔
      r ∈ records ∧ r.content ≠ "" ∧ r.status ≠ "已刪除" ∧ (uid = "" ∨ r.owner = uid) ∧
        ∃ d, parseDateStr r.date = some d ∧ dateLe startD d ∧ dateLe d endD := by
  unfold getSchedulesByDateRange
  rw [List.mem_insertionSort, List.mem_filter]
  unfold keepRecord userOk
  simp only [Bool.and_eq_true, Bool.not_eq_true', beq_eq_false_iff_ne, ne_eq,
    Bool.or_eq_true, beq_iff_eq, dateInRange_iff]
  constructor
  · rintro ⟨hmem, ⟨⟨⟨hdate, hcontent⟩, hstatus⟩, howner⟩, hrange⟩
    exact ⟨hmem, hcontent, hstatus, howner, hrange⟩
  · rintro ⟨hmem, hcontent, hstatus, howner, d, hd, h1, h2⟩
    refine ⟨hmem, ⟨⟨⟨?_, hcontent⟩, hstatus⟩, howner⟩, d, hd, h1, h2⟩
    intro he
    rw [he, parseDateStr_empty] at hd
    exact Option.noConfusion hd

theorem mem_getTwoWeeks (records : List Record) (today : Date) (uid : String) (r : Record) :
    r ∈ getTwoWeeksLaterSchedules records today uid ↔
      r ∈ records ∧ r.content ≠ "" ∧ r.owner = uid ∧ uid ≠ "" ∧ r.status ≠ "已刪除" ∧
        ∃ d, parseDateStr r.date = some d ∧
          dateLe (twoWeeksWindow today).1 d ∧ dateLe d (twoWeeksWindow today).2 := by
  unfold getTwoWeeksLaterSchedules
  rw [List.mem_insertionSort, List.mem_filter]
  unfold keepTwoWeeks
  simp only [Bool.and_eq_true, Bool.not_eq_true', beq_eq_false_iff_ne, ne_eq,
    beq_iff_eq, dateInRange_iff]
  constructor
  · rintro ⟨hmem, ⟨⟨⟨⟨hdate, hcontent⟩, howner⟩, hstatus⟩, hrange⟩, huid⟩
    exact ⟨hmem, hcontent, huid, huid ▸ howner, hstatus, hrange⟩
  · rintro ⟨hmem, hcontent, howner, huid, hstatus, d, hd, h1, h2⟩
    refine ⟨hmem, ⟨⟨⟨⟨?_, hcontent⟩, howner ▸ huid⟩, hstatus⟩, d, hd, h1, h2⟩, howner⟩
    intro he
    rw [he, parseDateStr_empty] at hd
    exact Option.noConfusion hd

/-!
Helper order facts on dates.
-/

theorem dateLe_refl (a : Date) : dateLe a a :=
  Or.inr ⟨rfl, Or.inr ⟨rfl, le_refl _⟩⟩

theorem dateLe_antisymm (a b : Date) (h1 : dateLe a b) (h2 : dateLe b a) : a = b := by
  obtain ⟨y1, m1, d1⟩ := a
  obtain ⟨y2, m2, d2⟩ := b
  unfold dateLe at h1 h2
  dsimp only at h1 h2
  have hy : y1 = y2 := by omega
  have hm : m1 = m2 := by omega
  have hd : d1 = d2 := by omega
  rw [hy, hm, hd]

/-!
Claim theorems.
-/

/-- C1: for every reference date, the Chinese month/day phrase with no
time parses as an all-day entry — date in the current year, empty time,
trimmed remainder as content; in particular `"6月30號 盤點"` at reference
2024-01-01 yields `(2024-06-30, "", "盤點")`. The handler is modelled from
the spec (rule 7), the pattern itself is the source's. -/
theorem c1_chinese_date_no_time :
    (∀ today : Date, parseNaturalInput "6月30號 盤點" today =
      some (formatDateF today.year 6 30, "", "盤點")) ∧
    (∀ today : Date, parseNaturalInput "12月25日 年終 聚餐" today =
      some (formatDateF today.year 12 25, "", "年終 聚餐")) ∧
    parseNaturalInput "6月30號 盤點" ⟨2024, 1, 1⟩ = some ("2024-06-30", "", "盤點") :=
  ⟨fun _ => rfl, fun _ => rfl, by decide⟩

/-- C2: when a rule's shape matches but its semantic validation fails, the
parser continues with the later rules: for `"今天25點開會"` the relative-day
hour rule matches with hour 25, its handler rejects it, and the all-day
relative-day rule then consumes `"25點開會"` as content, so the outcome is
the all-day entry for today that the claim's second disjunct describes. -/
theorem c2_invalid_hour_falls_through (today : Date) :
    mRelTime "今天".data (trimL "今天25點開會".data) = some (25, "開會".data) ∧
    relTimeHandler today 25 "開會".data = none ∧
    parseNaturalInput "今天25點開會" today = some (formatDate today, "", "25點開會") :=
  ⟨rfl, rfl, rfl⟩

/-- C7: for relative-day phrases with a 下午/晚上 qualifier, an hour below
12 is normalized by adding 12, a normalized result above 24 makes the rule
yield no match, and the minute is always normalized to `:00`; in
particular `"明天下午2點聚餐"` at reference 2024-06-10 yields
`(2024-06-11, 14:00, "聚餐")`. -/
theorem c7_pm_normalization :
    (∀ h : Nat, h < 12 → pmHour h = some (h + 12)) ∧
    (∀ h : Nat, 24 < (if h < 12 then h + 12 else h) → pmHour h = none) ∧
    (∀ (today : Date) (h h2 : Nat) (c : List Char), pmHour h = some h2 →
      relPmHandler today h c = some (formatDate today, pad2 h2 ++ ":00", strTrim c)) ∧
    parseNaturalInput "明天下午2點聚餐" ⟨2024, 6, 10⟩ = some ("2024-06-11", "14:00", "聚餐") := by
  refine ⟨?_, ?_, ?_, by decide⟩
  · intro h hh
    unfold pmHour
    rw [if_pos hh, if_neg (by omega)]
  · intro h hh
    unfold pmHour
    rw [if_pos hh]
  · intro today h h2 c hp
    unfold relPmHandler
    rw [hp]

/-- C7 witness: the second and third parts applied at hours 2 and 25, and
the end-to-end example. -/
theorem c7_pm_normalization_witness :
    pmHour 2 = some 14 ∧ pmHour 25 = none ∧
      parseNaturalInput "明天下午2點聚餐" ⟨2024, 6, 10⟩ = some ("2024-06-11", "14:00", "聚餐") :=
  ⟨c7_pm_normalization.1 2 (by omega), c7_pm_normalization.2.1 25 (by decide),
    c7_pm_normalization.2.2.2⟩

/-- C8: the parser is a total function returning a value for every input
(no exception escapes: shape failures and validation failures fall through
to the next rule), and malformed inputs are rejected rather than clamped:
`"13月"` matches no rule, and `"4/31 開會"` (day 31 in April) matches the
slash-date shape but fails the calendar check, so both parse to `none`
for every reference date, never to a different valid date. -/
theorem c8_malformed_no_raise :
    (∀ (text : String) (today : Date),
      parseNaturalInput text today = none ∨ ∃ v, parseNaturalInput text today = some v) ∧
    (∀ today : Date, parseNaturalInput "13月" today = none) ∧
    (∀ today : Date, parseNaturalInput "4/31 開會" today = none) := by
  refine ⟨?_, fun _ => rfl, fun _ => rfl⟩
  intro text today
  cases h : parseNaturalInput text today with
  | none => exact Or.inl rfl
  | some v => exact Or.inr ⟨v, rfl⟩

theorem validDate_mk (y m d : Nat) (h1 : 1 ≤ y) (h2 : 1 ≤ m) (h3 : m ≤ 12) (h4 : 1 ≤ d)
    (h5 : d ≤ daysInMonth y m) : isValidDate ⟨y, m, d⟩ :=
  ⟨h1, h2, h3, h4, h5⟩

theorem validDate_day_le (y m d : Nat) (h : isValidDate ⟨y, m, d⟩) : d ≤ daysInMonth y m :=
  h.2.2.2.2

theorem dateLe_mk_same_month (y m d1 d2 : Nat) (h : d1 ≤ d2) :
    dateLe ⟨y, m, d1⟩ ⟨y, m, d2⟩ :=
  Or.inr ⟨rfl, Or.inr ⟨rfl, h⟩⟩

/-- C3: for every valid reference date, `get_next_month_schedules` uses
the inclusive range from the first day of the month after the reference's
month (the day after the current month's last day, with the year rolling
at December) to the last calendar day of that month (valid, and its
successor day is not a valid date), correct for February in leap and
non-leap years: reference 2024-01-31 gives [2024-02-01, 2024-02-29] and
reference 2023-01-31 gives [2023-02-01, 2023-02-28]. -/
theorem c3_next_month_range (today : Date) (h : isValidDate today) :
    nextMonthRange ⟨2024, 1, 31⟩ = (⟨2024, 2, 1⟩, ⟨2024, 2, 29⟩) ∧
    nextMonthRange ⟨2023, 1, 31⟩ = (⟨2023, 2, 1⟩, ⟨2023, 2, 28⟩) ∧
    (nextMonthRange today).1 =
      nextDay ⟨today.year, today.month, daysInMonth today.year today.month⟩ ∧
    (nextMonthRange today).1.day = 1 ∧
    12 * (nextMonthRange today).1.year + (nextMonthRange today).1.month =
      12 * today.year + today.month + 1 ∧
    (nextMonthRange today).2.year = (nextMonthRange today).1.year ∧
    (nextMonthRange today).2.month = (nextMonthRange today).1.month ∧
    isValidDate (nextMonthRange today).1 ∧
    isValidDate (nextMonthRange today).2 ∧
    ¬ isValidDate ⟨(nextMonthRange today).2.year, (nextMonthRange today).2.month,
      (nextMonthRange today).2.day + 1⟩ ∧
    dateLe (nextMonthRange today).1 (nextMonthRange today).2 := by
  obtain ⟨y, m, dd⟩ := today
  obtain ⟨hy, hm1, hm2, hd1, hd2⟩ := h
  dsimp only at hy hm1 hm2 hd1 hd2
  refine ⟨by decide, by decide, ?_⟩
  by_cases hm : m = 12
  · subst hm
    have hnext : nextDay ⟨y, 12, daysInMonth y 12⟩ = ⟨y + 1, 1, 1⟩ := by
      unfold nextDay
      dsimp only
      rw [if_neg (by omega), if_neg (by omega)]
    have hs : (nextMonthRange ⟨y, 12, dd⟩).1 = ⟨y + 1, 1, 1⟩ := by
      unfold nextMonthRange
      dsimp only
      rw [if_pos rfl]
    have he : (nextMonthRange ⟨y, 12, dd⟩).2 = ⟨y + 1, 1, 31⟩ := by
      unfold nextMonthRange
      dsimp only
      rw [if_pos rfl]
      rfl
    have h31 : daysInMonth (y + 1) 1 = 31 := rfl
    rw [hs, he, hnext]
    dsimp only
    refine ⟨rfl, rfl, by omega, rfl, rfl, ?_, ?_, ?_, ?_⟩
    · exact validDate_mk _ _ _ (by omega) (by omega) (by omega) (by omega) (by omega)
    · exact validDate_mk _ _ _ (by omega) (by omega) (by omega) (by omega) (by omega)
    · intro hbad
      have hb := validDate_day_le _ _ _ hbad
      omega
    · exact dateLe_mk_same_month _ _ _ _ (by omega)
  · have hnext : nextDay ⟨y, m, daysInMonth y m⟩ = ⟨y, m + 1, 1⟩ := by
      unfold nextDay
      dsimp only
      rw [if_neg (by omega), if_pos (by omega)]
    have hs : (nextMonthRange ⟨y, m, dd⟩).1 = ⟨y, m + 1, 1⟩ := by
      unfold nextMonthRange
      dsimp only
      rw [if_neg hm]
    have he : (nextMonthRange ⟨y, m, dd⟩).2 = ⟨y, m + 1, daysInMonth y (m + 1)⟩ := by
      unfold nextMonthRange
      dsimp only
      rw [if_neg hm]
    have hdm1 := one_le_daysInMonth y (m + 1) (by omega) (by omega)
    rw [hs, he, hnext]
    dsimp only
    refine ⟨rfl, rfl, by omega, rfl, rfl, ?_, ?_, ?_, ?_⟩
    · exact validDate_mk _ _ _ (by omega) (by omega) (by omega) (by omega) (by omega)
    · exact validDate_mk _ _ _ (by omega) (by omega) (by omega) (by omega) (by omega)
    · intro hbad
      have hb := validDate_day_le _ _ _ hbad
      omega
    · exact dateLe_mk_same_month _ _ _ _ (by omega)

/-- C3 witness: the theorem applied at the valid reference 2024-01-31. -/
theorem c3_next_month_range_witness :
    isValidDate ⟨2024, 1, 31⟩ ∧
      nextMonthRange ⟨2024, 1, 31⟩ = (⟨2024, 2, 1⟩, ⟨2024, 2, 29⟩) :=
  ⟨by decide, (c3_next_month_range ⟨2024, 1, 31⟩ (by decide)).1⟩

/-- C4: for every valid reference date, the `this_week` range starts on a
Monday (`weekday` 0, the days-since-most-recent-Monday offset having been
subtracted) and its end is exactly the start plus six days; both ends are
valid dates. -/
theorem c4_this_week_monday (today : Date) (h : isValidDate today) :
    weekday (thisWeekRange today).1 = 0 ∧
    toOrdinal (thisWeekRange today).2 = toOrdinal (thisWeekRange today).1 + 6 ∧
    (thisWeekRange today).2 = addDays 6 (thisWeekRange today).1 ∧
    isValidDate (thisWeekRange today).1 ∧
    isValidDate (thisWeekRange today).2 := by
  unfold thisWeekRange
  dsimp only
  have hm := monday_of today h
  have ha := addDays_ordinal 6 (subDays (weekday today) today) hm.2.2
  exact ⟨hm.1, ha.1, rfl, hm.2.2, ha.2⟩

set_option maxHeartbeats 1000000 in
/-- C4 witness: the theorem applied at the valid reference 2024-06-12
(a Wednesday; its week starts on Monday 2024-06-10). -/
theorem c4_this_week_monday_witness :
    isValidDate ⟨2024, 6, 12⟩ ∧ weekday (thisWeekRange ⟨2024, 6, 12⟩).1 = 0 ∧
      thisWeekRange ⟨2024, 6, 12⟩ = (⟨2024, 6, 10⟩, ⟨2024, 6, 16⟩) :=
  ⟨by decide, (c4_this_week_monday ⟨2024, 6, 12⟩ (by decide)).1, by decide⟩

/-- C6: app.py's `get_tomorrow_schedules` queries exactly the single-day
inclusive range `[today+1, today+1]` — a row of the requester is returned
iff it is well-formed, not deleted, and dated exactly one calendar day
after today. But `process_message` (message_handler.py) computes its
`明天有哪些行程` query date by adding the timezone's UTC offset (+8 hours
for Asia/Taipei) instead of one day: at local time 2024-06-10 10:00 it
queries 2024-06-10 — today, not today+1 — diverging from the claim. -/
theorem c6_tomorrow_query :
    (∀ (records : List Record) (today : Date) (uid : String) (r : Record),
      r ∈ getTomorrowSchedules records today uid ↔
        r ∈ records ∧ r.content ≠ "" ∧ r.status ≠ "已刪除" ∧ (uid = "" ∨ r.owner = uid) ∧
          parseDateStr r.date = some (nextDay today)) ∧
    msgTomorrowDate ⟨⟨2024, 6, 10⟩, 10, 0, 0⟩ = ⟨2024, 6, 10⟩ ∧
    nextDay ⟨2024, 6, 10⟩ = ⟨2024, 6, 11⟩ ∧
    msgTomorrowDate ⟨⟨2024, 6, 10⟩, 10, 0, 0⟩ ≠ nextDay ⟨2024, 6, 10⟩ := by
  refine ⟨?_, by decide, by decide, by decide⟩
  intro records today uid r
  unfold getTomorrowSchedules
  rw [mem_getSchedules]
  constructor
  · rintro ⟨hmem, hc, hs, ho, d, hd, h1, h2⟩
    have : d = nextDay today := dateLe_antisymm d (nextDay today) h2 h1
    subst this
    exact ⟨hmem, hc, hs, ho, hd⟩
  · rintro ⟨hmem, hc, hs, ho, hd⟩
    exact ⟨hmem, hc, hs, ho, nextDay today, hd, dateLe_refl _, dateLe_refl _⟩

/-- C9: for every nonempty owner and inclusive date range, the range
query returns exactly the owner's non-deleted well-formed rows whose
stored date parses to a date within the range, sorted ascending by the
`(date, time)` key, under which an empty time sorts before any time
string on the same date. -/
theorem c9_store_query (records : List Record) (startD endD : Date) (uid : String)
    (huid : uid ≠ "") :
    (∀ r : Record, r ∈ getSchedulesByDateRange records startD endD uid ↔
      r ∈ records ∧ r.content ≠ "" ∧ r.status ≠ "已刪除" ∧ r.owner = uid ∧
        ∃ d, parseDateStr r.date = some d ∧ dateLe startD d ∧ dateLe d endD) ∧
    List.Sorted keyLe (getSchedulesByDateRange records startD endD uid) ∧
    (∀ a b : Record, a.date = b.date → a.time = "" → keyLe a b) := by
  refine ⟨?_, List.sorted_insertionSort keyLe _, keyLe_of_allday⟩
  intro r
  rw [mem_getSchedules]
  constructor
  · rintro ⟨hmem, hc, hs, ho, hrange⟩
    exact ⟨hmem, hc, hs, ho.resolve_left huid, hrange⟩
  · rintro ⟨hmem, hc, hs, ho, hrange⟩
    exact ⟨hmem, hc, hs, Or.inr ho, hrange⟩

/-- C9 witness: the theorem applied to a two-row store with owner `U1`;
the all-day row of 2024-06-11 is listed before the timed rows and the
other owner's row is excluded. -/
theorem c9_store_query_witness :
    ("U1" : String) ≠ "" ∧
      getSchedulesByDateRange
        [⟨"a", "2024-06-12", "10:00", "x", "", "", "U1", "有效"⟩,
         ⟨"b", "2024-06-11", "09:00", "y", "", "", "U1", "有效"⟩,
         ⟨"c", "2024-06-11", "", "z", "", "", "U1", "有效"⟩,
         ⟨"d", "2024-06-11", "08:00", "w", "", "", "U2", "有效"⟩]
        ⟨2024, 6, 1⟩ ⟨2024, 6, 30⟩ "U1" =
        [⟨"c", "2024-06-11", "", "z", "", "", "U1", "有效"⟩,
         ⟨"b", "2024-06-11", "09:00", "y", "", "", "U1", "有效"⟩,
         ⟨"a", "2024-06-12", "10:00", "x", "", "", "U1", "有效"⟩] ∧
      List.Sorted keyLe (getSchedulesByDateRange
        [⟨"a", "2024-06-12", "10:00", "x", "", "", "U1", "有效"⟩,
         ⟨"b", "2024-06-11", "09:00", "y", "", "", "U1", "有效"⟩,
         ⟨"c", "2024-06-11", "", "z", "", "", "U1", "有效"⟩,
         ⟨"d", "2024-06-11", "08:00", "w", "", "", "U2", "有效"⟩]
        ⟨2024, 6, 1⟩ ⟨2024, 6, 30⟩ "U1") :=
  ⟨by decide, by decide,
    (c9_store_query
      [⟨"a", "2024-06-12", "10:00", "x", "", "", "U1", "有效"⟩,
       ⟨"b", "2024-06-11", "09:00", "y", "", "", "U1", "有效"⟩,
       ⟨"c", "2024-06-11", "", "z", "", "", "U1", "有效"⟩,
       ⟨"d", "2024-06-11", "08:00", "w", "", "", "U2", "有效"⟩]
      ⟨2024, 6, 1⟩ ⟨2024, 6, 30⟩ "U1" (by decide)).2.1⟩

/-- C10: `add_schedule` is atomic on failure. An unparsable date string,
or a nonempty time string that fails `%H:%M` validation, returns the
`False` outcome with the store unchanged; a date strictly before today
passes validation but returns the `過去日期` sentinel with the store
unchanged; only when validation and the past-date check pass is exactly
one row appended, and the assigned schedule id returned. -/
theorem c10_add_schedule_atomic (store : List Record)
    (dateStr timeStr content userId : String) (now : DateTime) (today : Date) :
    (parseDateStr dateStr = none →
      addSchedule store dateStr timeStr content userId now today =
        (store, AddResult.invalidFormat)) ∧
    (∀ d, parseDateStr dateStr = some d → timeStr ≠ "" → parseTimeStr timeStr = none →
      addSchedule store dateStr timeStr content userId now today =
        (store, AddResult.invalidFormat)) ∧
    (∀ d, parseDateStr dateStr = some d → (timeStr = "" ∨ (parseTimeStr timeStr).isSome) →
      dateLt d today →
      addSchedule store dateStr timeStr content userId now today =
        (store, AddResult.pastDate)) ∧
    (∀ d, parseDateStr dateStr = some d → (timeStr = "" ∨ (parseTimeStr timeStr).isSome) →
      ¬ dateLt d today →
      addSchedule store dateStr timeStr content userId now today =
        (store ++ [⟨mkScheduleId now userId, dateStr, timeStr, content, "", mkCreated now,
          userId, "有效"⟩],
         AddResult.ok (mkScheduleId now userId))) := by
  refine ⟨?_, ?_, ?_, ?_⟩
  · intro hd
    unfold addSchedule
    rw [hd]
  · intro d hd ht hp
    unfold addSchedule
    rw [hd]
    dsimp only
    have hc : (!(timeStr == "") && (parseTimeStr timeStr).isNone) = true := by
      rw [hp]
      simp [ht]
    rw [if_pos hc]
  · intro d hd ht hlt
    unfold addSchedule
    rw [hd]
    dsimp only
    have hc : (!(timeStr == "") && (parseTimeStr timeStr).isNone) = false := by
      rcases ht with ht | ht
      · simp [ht]
      · cases hpt : parseTimeStr timeStr with
        | none =>
          rw [hpt] at ht
          simp at ht
        | some v => simp [hpt]
    rw [hc, if_neg Bool.false_ne_true, if_pos hlt]
  · intro d hd ht hlt
    unfold addSchedule
    rw [hd]
    dsimp only
    have hc : (!(timeStr == "") && (parseTimeStr timeStr).isNone) = false := by
      rcases ht with ht | ht
      · simp [ht]
      · cases hpt : parseTimeStr timeStr with
        | none =>
          rw [hpt] at ht
          simp at ht
        | some v => simp [hpt]
    rw [hc, if_neg Bool.false_ne_true, if_neg hlt]

/-- C10 witness: the success branch applied concretely — a valid future
date with a valid time appends exactly one row and returns the id. -/
theorem c10_add_schedule_atomic_witness :
    parseDateStr "2024-06-11" = some ⟨2024, 6, 11⟩ ∧
      addSchedule [] "2024-06-11" "14:00" "聚餐" "Uab12" ⟨⟨2024, 6, 10⟩, 12, 0, 0⟩
          ⟨2024, 6, 10⟩ =
        ([⟨"M20240610120000ab12", "2024-06-11", "14:00", "聚餐", "",
           "2024-06-10 12:00:00", "Uab12", "有效"⟩],
         AddResult.ok "M20240610120000ab12") := by
  refine ⟨by decide, ?_⟩
  have h4 := (c10_add_schedule_atomic [] "2024-06-11" "14:00" "聚餐" "Uab12"
    ⟨⟨2024, 6, 10⟩, 12, 0, 0⟩ ⟨2024, 6, 10⟩).2.2.2 ⟨2024, 6, 11⟩ (by decide)
    (Or.inr (by decide)) (by decide)
  rw [h4]
  decide

/-- Concrete row used to separate the two `get_two_weeks_later_schedules`
implementations: owner U1, active, dated 2024-06-25. -/
def c5Row : Record :=
  ⟨"S1", "2024-06-25", "", "盤點", "", "", "U1", "有效"⟩

set_option maxHeartbeats 1000000 in
/-- C5 counterexample: the claim as stated fails on schedule_manager.py's
`get_two_weeks_later_schedules`. At reference 2024-06-10 the Monday-week
window of today+14 is [2024-06-24, 2024-06-30]; the non-deleted row dated
2024-06-25 lies in that window yet is not returned, because this
implementation matches only the single date today+14 (2024-06-24). -/
theorem c5_two_weeks_counterexample :
    ¬ (∀ (records : List Record) (today : Date) (uid : String) (r : Record),
        r ∈ records → r.owner = uid → r.status ≠ "已刪除" →
        (r ∈ smTwoWeeksLaterSchedules records today uid ↔
          ∃ d, parseDateStr r.date = some d ∧
            dateLe (twoWeeksWindow today).1 d ∧ dateLe d (twoWeeksWindow today).2)) := by
  intro hclaim
  have hmem := (hclaim [c5Row] ⟨2024, 6, 10⟩ "U1" c5Row (by decide) (by decide)
    (by decide)).mpr ⟨⟨2024, 6, 25⟩, by decide, by decide, by decide⟩
  have hnot : c5Row ∉ smTwoWeeksLaterSchedules [c5Row] ⟨2024, 6, 10⟩ "U1" := by decide
  exact hnot hmem

/-- C5 (amended): app.py's `get_two_weeks_later_schedules` covers exactly
the inclusive Monday-week of today+14 — for a nonempty owner, a row is in
that owner's digest group iff it is well-formed, non-deleted, the owner's,
and dated within the window, whose start is a Monday, contains today+14,
and whose end is the start plus six days. The earlier iteration in
schedule_manager.py instead returns exactly the rows whose stored date
string equals today+14 — a single day, with no deleted-status check. -/
theorem c5_two_weeks_amended :
    (∀ (records : List Record) (today : Date) (uid : String) (r : Record), uid ≠ "" →
      (r ∈ getTwoWeeksLaterSchedules records today uid ↔
        r ∈ records ∧ r.content ≠ "" ∧ r.owner = uid ∧ r.status ≠ "已刪除" ∧
          ∃ d, parseDateStr r.date = some d ∧
            dateLe (twoWeeksWindow today).1 d ∧ dateLe d (twoWeeksWindow today).2)) ∧
    (∀ today : Date, isValidDate today →
      weekday (twoWeeksWindow today).1 = 0 ∧
      toOrdinal (addDays 14 today) = toOrdinal today + 14 ∧
      toOrdinal (twoWeeksWindow today).1 ≤ toOrdinal (addDays 14 today) ∧
      toOrdinal (addDays 14 today) ≤ toOrdinal (twoWeeksWindow today).1 + 6 ∧
      toOrdinal (twoWeeksWindow today).2 = toOrdinal (twoWeeksWindow today).1 + 6) ∧
    (∀ (records : List Record) (today : Date) (uid : String) (r : Record),
      r ∈ smTwoWeeksLaterSchedules records today uid ↔
        r ∈ records ∧ r.owner = uid ∧ r.date = formatDate (addDays 14 today)) := by
  refine ⟨?_, ?_, ?_⟩
  · intro records today uid r huid
    rw [mem_getTwoWeeks]
    constructor
    · rintro ⟨hm, hc, ho, _, hs, hr⟩
      exact ⟨hm, hc, ho, hs, hr⟩
    · rintro ⟨hm, hc, ho, hs, hr⟩
      exact ⟨hm, hc, ho, huid, hs, hr⟩
  · intro today h
    unfold twoWeeksWindow
    dsimp only
    have ha := addDays_ordinal 14 today h
    have hmon := monday_of (addDays 14 today) ha.2
    have hw : weekday (addDays 14 today) ≤ 6 := by
      unfold weekday
      omega
    have he := addDays_ordinal 6
      (subDays (weekday (addDays 14 today)) (addDays 14 today)) hmon.2.2
    exact ⟨hmon.1, ha.1, by omega, by omega, by omega⟩
  · intro records today uid r
    unfold smTwoWeeksLaterSchedules
    rw [List.mem_filter]
    simp only [Bool.and_eq_true, beq_iff_eq]
    constructor
    · rintro ⟨hm, hd, ho⟩
      exact ⟨hm, ho, hd⟩
    · rintro ⟨hm, ho, hd⟩
      exact ⟨hm, hd, ho⟩

set_option maxHeartbeats 1000000 in
/-- C5 witness: the amended theorem applied at reference 2024-06-10 with
owner U1 — the window starts on a Monday and the row dated 2024-06-25 is
in app.py's digest group. -/
theorem c5_two_weeks_amended_witness :
    ("U1" : String) ≠ "" ∧ isValidDate ⟨2024, 6, 10⟩ ∧
      weekday (twoWeeksWindow ⟨2024, 6, 10⟩).1 = 0 ∧
      c5Row ∈ getTwoWeeksLaterSchedules [c5Row] ⟨2024, 6, 10⟩ "U1" := by
  refine ⟨by decide, by decide,
    (c5_two_weeks_amended.2.1 ⟨2024, 6, 10⟩ (by decide)).1, ?_⟩
  refine (c5_two_weeks_amended.1 [c5Row] ⟨2024, 6, 10⟩ "U1" c5Row (by decide)).mpr ?_
  exact ⟨by decide, by decide, by decide, by decide,
    ⟨2024, 6, 25⟩, by decide, by decide, by decide⟩
